import Mathlib

/-!
Shallow embedding of the seen-post tracking core of this repository
(`src/maxine/seen-posts.ts`) and of the alt-text length handling of
`src/maxine/alt-text.ts`, together with theorems settling the stated
properties of the specification.

The durable store (`IdbKV`, imported by the source from `./idb`) is an
external collaborator: it is modelled abstractly as a pair of read
functions whose behaviour is arbitrary (a rejected promise is an
`Except.error`).  Its `set` is fire-and-forget in the source and is never
read back by this layer, so the model does not track the write buffer:
quantifying over all store read behaviours covers every commit state of
the buffered writes.

JavaScript `Map` objects are modelled as association lists in insertion
order: `Map.set` updates an existing key in place, otherwise appends.
`V | undefined` values are modelled as `Option V`.
-/

namespace SeenPosts

/-- A JavaScript `Map` in insertion order. -/
abbrev JsMap (K V : Type) := List (K × V)

/-- `Map.prototype.get`: the value of the first (unique) entry for `k`. -/
def mapLookup {K V : Type} [DecidableEq K] (m : JsMap K V) (k : K) : Option V :=
  (m.find? (fun p => p.1 = k)).map Prod.snd

/-- `Map.prototype.has`. -/
def mapHas {K V : Type} [DecidableEq K] (m : JsMap K V) (k : K) : Bool :=
  (mapLookup m k).isSome

/-- `Map.prototype.set`: update in place if the key exists, else append. -/
def mapSet {K V : Type} [DecidableEq K] (m : JsMap K V) (k : K) (v : V) : JsMap K V :=
  match m with
  | [] => [(k, v)]
  | p :: rest => if p.1 = k then (k, v) :: rest else p :: mapSet rest k v

/-- `Map.prototype.values` (in insertion order). -/
def mapValues {K V : Type} (m : JsMap K V) : List V :=
  m.map Prod.snd

/-- The cache field of `IdbWithInMemoryCache`: a `Map<K, V | undefined>`;
reading an entry known to be present collapses a missing entry and a
stored `undefined` to `undefined`, as `Map.get` does on that value type. -/
def mapGetV {K V : Type} [DecidableEq K] (m : JsMap K (Option V)) (k : K) : Option V :=
  (mapLookup m k).getD none

/-- The durable store contract consumed by the cache (`IdbKV` from
`./idb`, not part of this repository's sources): single read and batched
read, each of which may reject (`Except.error`). -/
structure IdbKV (K V : Type) where
  readOne : K → Except Unit (Option V)
  readBatch : List K → Except Unit (JsMap K (Option V))

/-- Outcome of `IdbWithInMemoryCache.get`: the settled promise (value or
rejection), the cache after the handler attached by `get` has run, and
how many reads were issued to the durable store. -/
structure GetRes (K V : Type) where
  result : Except Unit (Option V)
  cache : JsMap K (Option V)
  storeReads : Nat

/-- Outcome of `IdbWithInMemoryCache.getBatch`, analogous to `GetRes`. -/
structure BatchRes (K V : Type) where
  result : Except Unit (JsMap K (Option V))
  cache : JsMap K (Option V)
  storeReads : Nat

/-- `IdbWithInMemoryCache.set`: synchronously overwrite the memory entry
(and forward the value to the durable store, fire-and-forget). -/
def cacheSet {K V : Type} [DecidableEq K] (c : JsMap K (Option V)) (k : K) (v : V) :
    JsMap K (Option V) :=
  mapSet c k (some v)

/-- `IdbWithInMemoryCache.get`: serve from memory when the key is present
(zero store reads); otherwise read the durable store, back-fill memory
with whatever it resolved to, and return it.  A store rejection skips the
`then` handler (memory untouched) and propagates. -/
def cacheGet {K V : Type} [DecidableEq K] (idb : IdbKV K V) (c : JsMap K (Option V)) (k : K) :
    GetRes K V :=
  if mapHas c k then ⟨Except.ok (mapGetV c k), c, 0⟩
  else
    match idb.readOne k with
    | Except.ok v => ⟨Except.ok v, mapSet c k v, 1⟩
    | Except.error e => ⟨Except.error e, c, 1⟩

/-- The key-scanning loop of `IdbWithInMemoryCache.getBatch`: walk the
requested keys building the result map from memory, stopping at the first
key memory does not hold (`readAllKeysFromCache = false` is `none`). -/
def batchLoop {K V : Type} [DecidableEq K] (c : JsMap K (Option V)) :
    List K → JsMap K (Option V) → Option (JsMap K (Option V))
  | [], acc => some acc
  | k :: ks, acc =>
      if mapHas c k then batchLoop c ks (mapSet acc k (mapGetV c k)) else none

/-- `IdbWithInMemoryCache.getBatch`: if every key is memory-resident,
return the map composed from memory with no store read; otherwise issue
one durable multi-get for the full key list, write every returned pair
into memory, and return the store's map.  A store rejection skips the
`then` handler and propagates. -/
def cacheGetBatch {K V : Type} [DecidableEq K] (idb : IdbKV K V) (c : JsMap K (Option V))
    (keys : List K) : BatchRes K V :=
  match batchLoop c keys [] with
  | some res => ⟨Except.ok res, c, 0⟩
  | none =>
      match idb.readBatch keys with
      | Except.ok batch =>
          ⟨Except.ok batch, batch.foldl (fun acc p => mapSet acc p.1 p.2) c, 1⟩
      | Except.error e => ⟨Except.error e, c, 1⟩

/-- The record stored per seen post (`setSeenPost` in the source).
`Date` is modelled as a `Nat` timestamp, `FeedDescriptor` as an opaque
string. -/
structure SeenPostRecord where
  postUri : String
  postCid : String
  lastSeenAt : Nat
  lastSeenFeed : String
  deriving DecidableEq

/-- Composite key derivation used by `setSeenPost`, `useIsPostSeen` and
`useIsSliceSeen`: the template literal `uri:cid`. -/
def deriveKey (uri cid : String) : String :=
  uri ++ ":" ++ cid

/-- `setSeenPost`: derive the key and `set` the record on the cache
(`now` stands for `new Date()`). -/
def setSeenPost (c : JsMap String (Option SeenPostRecord)) (uri cid : String)
    (now : Nat) (feed : String) : JsMap String (Option SeenPostRecord) :=
  cacheSet c (deriveKey uri cid) ⟨uri, cid, now, feed⟩

/-- The observable state of a tracker hook: the shared cache plus the
boolean last passed to `setIsSeen` (initially `false`). -/
structure TrackerView where
  cache : JsMap String (Option SeenPostRecord)
  reported : Bool
  deriving DecidableEq

/-- One run of the `useIsPostSeen` effect: `get` the derived key; when
the promise resolves, report `seenPost !== undefined`; when it rejects,
the `then` callback never runs, so the reported state keeps its previous
value.  Returns the new view and the number of durable reads issued. -/
def useIsPostSeen (idb : IdbKV String SeenPostRecord) (tv : TrackerView)
    (uri cid : String) : TrackerView × Nat :=
  let r := cacheGet idb tv.cache (deriveKey uri cid)
  match r.result with
  | Except.ok v => (⟨r.cache, v.isSome⟩, r.storeReads)
  | Except.error _ => (⟨r.cache, tv.reported⟩, r.storeReads)

/-- What `useIsPostSeen` would report for a post over a given cache state
(`false` both for an absent record and for a rejected read, whose
callback never fires and leaves the initial `false`). -/
def isPostSeenReports (idb : IdbKV String SeenPostRecord)
    (c : JsMap String (Option SeenPostRecord)) (uri cid : String) : Bool :=
  match (cacheGet idb c (deriveKey uri cid)).result with
  | Except.ok v => v.isSome
  | Except.error _ => false

/-- One run of the `useIsSliceSeen` effect over the slice's
`(uri, cid)` items.  An empty item list returns before any query.
Otherwise the `console.log` line issues one unawaited `get` per item
(these only contribute store reads; their back-fill races the batch
resolution and no stated property depends on the final cache, so the
model returns the reported boolean and the total store reads), then
`getBatch` runs against the same synchronous cache snapshot and, on
resolution, reports whether every value of the returned map is truthy;
on rejection the reported state keeps its previous value. -/
def useIsSliceSeen (idb : IdbKV String SeenPostRecord) (tv : TrackerView)
    (items : List (String × String)) : Bool × Nat :=
  let keys := items.map (fun it => deriveKey it.1 it.2)
  if keys.isEmpty then (tv.reported, 0)
  else
    let logReads :=
      (items.map (fun it => (cacheGet idb tv.cache (deriveKey it.1 it.2)).storeReads)).sum
    let b := cacheGetBatch idb tv.cache keys
    match b.result with
    | Except.ok m => ((mapValues m).all (fun v => v.isSome), logReads + b.storeReads)
    | Except.error _ => (tv.reported, logReads + b.storeReads)

end SeenPosts

namespace AltText

/-- `MAX_ALT_TEXT_LENGTH` from `src/maxine/alt-text.ts`. -/
def MAX_ALT_TEXT_LENGTH : Nat := 2000

/-- `ABSOLUTE_MAX_LENGTH` from `src/maxine/alt-text.ts`. -/
def ABSOLUTE_MAX_LENGTH : Nat := 5000

/-- JavaScript `s.substring(0, n)`, on characters. -/
def jsSubstring (s : String) (n : Nat) : String :=
  String.mk (s.data.take n)

/-- The truncation fallback used by `condenseAltText` when condensation
cannot be performed: `originalText.substring(0, MAX_ALT_TEXT_LENGTH - 3)
+ ...`. -/
def truncFallback (originalText : String) : String :=
  jsSubstring originalText (MAX_ALT_TEXT_LENGTH - 3) ++ "..."

/-- The condensation request body built by `condenseAltText`. -/
structure CondenseRequest where
  operation : String
  directive : String
  text : String
  targetLength : Nat
  deriving DecidableEq

/-- The request `condenseAltText` sends to the proxy: operation
`condense_text`, a directive naming the media type and the target
length, and the original text truncated to `ABSOLUTE_MAX_LENGTH` when
extremely long. -/
def condenseRequestOf (originalText : String) (isVideo : Bool) : CondenseRequest :=
  let targetLength := MAX_ALT_TEXT_LENGTH - 100
  let mediaType := if isVideo then "video" else "image"
  let directive :=
    "You are an expert at writing concise, informative alt text. Please condense the following "
      ++ mediaType
      ++ " description to be no more than " ++ toString targetLength
      ++ " characters while preserving the most important details. The description needs to be accessible and useful for screen readers:"
  let safeOriginalText :=
    if originalText.length > ABSOLUTE_MAX_LENGTH then
      jsSubstring originalText (ABSOLUTE_MAX_LENGTH - 100) ++ "... [content truncated for processing]"
    else originalText
  ⟨"condense_text", directive, safeOriginalText, targetLength⟩

/-- `condenseAltText`, over the condensation service's observable reply:
`replyOk` is `response.ok`, `replyAltText` the `altText` field of the
parsed body (`none` when missing; JavaScript truthiness also sends an
empty string to the fallback).  An unconfigured proxy URL or a failed
reply falls back to truncation; otherwise the service's text is returned
as is. -/
def condenseAltText (originalText : String) (urlConfigured replyOk : Bool)
    (replyAltText : Option String) : String :=
  if urlConfigured = false then truncFallback originalText
  else if replyOk = false ∨ replyAltText.getD "" = "" then truncFallback originalText
  else replyAltText.getD ""

/-- The success-branch post-processing of `generateAltTextViaProxy`
(lines 214–236): when the proxy's `altText` exceeds
`MAX_ALT_TEXT_LENGTH`, request condensation (never truncation of the
proxy text directly); for videos, prepend a condensation note only when
it still fits the ceiling.  Within `generateAltTextViaProxy` the proxy
URL is already known to be configured, so `condenseAltText` runs with
`urlConfigured = true`. -/
def handleProxyAltText (responseAltText : String) (isVideo replyOk : Bool)
    (replyAltText : Option String) : String :=
  if responseAltText.length > MAX_ALT_TEXT_LENGTH then
    let condensed := condenseAltText responseAltText true replyOk replyAltText
    if isVideo then
      let condensedNote :=
        "[Note: This video description was automatically condensed to fit character limits.]\n\n"
      if condensed.length + condensedNote.length ≤ MAX_ALT_TEXT_LENGTH then
        condensedNote ++ condensed
      else condensed
    else condensed
  else responseAltText

/-- `String.mk` over a replicated character, for concrete long strings. -/
def repChar (n : Nat) (c : Char) : String :=
  String.mk (List.replicate n c)

end AltText

namespace SeenPosts

/-- The value the last occurrence of `k` in a batch response would leave
in memory (the `for (const [key, value] of batch)` loop writes pairs in
order, so a later pair overwrites an earlier one). -/
def lastLookup {K V : Type} [DecidableEq K] (m : JsMap K V) (k : K) : Option V :=
  (m.reverse.find? (fun p => p.1 = k)).map Prod.snd

/-- A durable store all of whose reads resolve to absent — e.g. a store
none of whose buffered writes have committed yet. -/
def absentStore (K V : Type) : IdbKV K V :=
  ⟨fun _ => Except.ok none, fun keys => Except.ok (keys.map (fun k => (k, none)))⟩

/-- A store whose batch read resolves to stale data for key `a` (its
buffered write for `a` has not committed) while resolving key `b`. -/
def staleBatchStore : IdbKV String Nat :=
  ⟨fun _ => Except.ok none, fun _ => Except.ok [("a", none), ("b", some 7)]⟩

/-- A store used to exhibit `getBatch`/`get` divergence on key `x`. -/
def divergeStore : IdbKV String Nat :=
  ⟨fun _ => Except.ok none, fun _ => Except.ok [("x", none), ("y", some 3)]⟩

/-- A store whose reads always reject (e.g. the IndexedDB transaction
fails). -/
def rejectingStore : IdbKV String SeenPostRecord :=
  ⟨fun _ => Except.error (), fun _ => Except.error ()⟩

/-- A seen record for post `(u2, c2)`. -/
def sliceRecord2 : SeenPostRecord :=
  ⟨"u2", "c2", 1, "feed"⟩

/-- A store holding a record for `u2:c2`, whose buffered write for
`u1:c1` has not committed (its batch read resolves `u1:c1` to absent). -/
def sliceStore : IdbKV String SeenPostRecord :=
  ⟨fun k => if k = "u2:c2" then Except.ok (some sliceRecord2) else Except.ok none,
   fun _ => Except.ok [("u1:c1", none), ("u2:c2", some sliceRecord2)]⟩

/-- A cache holding a freshly `set` record for `u1:c1`. -/
def sliceCache : JsMap String (Option SeenPostRecord) :=
  [("u1:c1", some ⟨"u1", "c1", 0, "feed"⟩)]

end SeenPosts

deriving instance DecidableEq for Except

namespace SeenPosts

variable {K V : Type} [DecidableEq K]

theorem mapLookup_nil (k : K) : mapLookup ([] : JsMap K V) k = none := rfl

theorem mapLookup_cons (p : K × V) (m : JsMap K V) (k : K) :
    mapLookup (p :: m) k = if p.1 = k then some p.2 else mapLookup m k := by
  by_cases h : p.1 = k <;> simp [mapLookup, List.find?, h]

theorem mapLookup_mapSet_self (m : JsMap K V) (k : K) (v : V) :
    mapLookup (mapSet m k v) k = some v := by
  induction m with
  | nil => simp [mapSet, mapLookup_cons]
  | cons p rest ih =>
      by_cases h : p.1 = k
      · simp [mapSet, h, mapLookup_cons]
      · simp [mapSet, h, mapLookup_cons, ih]

theorem mapLookup_mapSet_ne (m : JsMap K V) {k k' : K} (v : V) (h : k' ≠ k) :
    mapLookup (mapSet m k v) k' = mapLookup m k' := by
  have hne : ¬(k = k') := fun hk => h hk.symm
  induction m with
  | nil => simp [mapSet, mapLookup_cons, hne]
  | cons p rest ih =>
      by_cases hp : p.1 = k
      · simp [mapSet, hp, mapLookup_cons, hne]
      · simp [mapSet, hp, mapLookup_cons, ih]

theorem mapHas_mapSet_self (m : JsMap K V) (k : K) (v : V) :
    mapHas (mapSet m k v) k = true := by
  simp [mapHas, mapLookup_mapSet_self]

theorem mapGetV_mapSet_self (m : JsMap K (Option V)) (k : K) (v : Option V) :
    mapGetV (mapSet m k v) k = v := by
  simp [mapGetV, mapLookup_mapSet_self]

theorem mapLookup_eq_some_mem {m : JsMap K V} {k : K} {v : V}
    (h : mapLookup m k = some v) : (k, v) ∈ m := by
  unfold mapLookup at h
  obtain ⟨p, hfind⟩ : ∃ p, m.find? (fun p => p.1 = k) = some p := by
    cases hf : m.find? (fun p => p.1 = k) with
    | none => simp [hf] at h
    | some p => exact ⟨p, rfl⟩
  have hp : p.1 = k := by simpa using List.find?_some hfind
  have hv : p.2 = v := by simp [hfind] at h; exact h
  have := List.mem_of_find?_eq_some hfind
  rwa [show (k, v) = p from Prod.ext hp.symm hv.symm]

theorem mem_mapSet_elim {m : JsMap K V} {k : K} {v : V} {p : K × V}
    (h : p ∈ mapSet m k v) : p ∈ m ∨ p = (k, v) := by
  induction m with
  | nil => simp [mapSet] at h; simp [h]
  | cons q rest ih =>
      by_cases hq : q.1 = k
      · simp [mapSet, hq] at h
        rcases h with h | h
        · exact Or.inr (by simp [h])
        · exact Or.inl (by simp [h])
      · simp [mapSet, hq] at h
        rcases h with h | h
        · exact Or.inl (by simp [h])
        · rcases ih h with h' | h'
          · exact Or.inl (by simp [h'])
          · exact Or.inr h'

theorem self_mem_mapSet (m : JsMap K V) (k : K) (v : V) : (k, v) ∈ mapSet m k v := by
  induction m with
  | nil => simp [mapSet]
  | cons q rest ih =>
      by_cases hq : q.1 = k <;> simp [mapSet, hq, ih]

theorem mem_mapSet_of_ne {m : JsMap K V} {q : K × V} (h : q ∈ m) (k : K) (v : V)
    (hne : q.1 ≠ k) : q ∈ mapSet m k v := by
  induction m with
  | nil => simp at h
  | cons p rest ih =>
      by_cases hp : p.1 = k
      · simp [mapSet, hp]
        rcases List.mem_cons.mp h with h' | h'
        · exact absurd (h' ▸ hp) hne
        · simp [h']
      · rcases List.mem_cons.mp h with h' | h'
        · simp [mapSet, hp, h']
        · simp [mapSet, hp, ih h']

theorem batchLoop_isSome_iff (c : JsMap K (Option V)) (keys : List K)
    (acc : JsMap K (Option V)) :
    (batchLoop c keys acc).isSome = true ↔ ∀ k ∈ keys, mapHas c k = true := by
  induction keys generalizing acc with
  | nil => simp [batchLoop]
  | cons k ks ih =>
      by_cases h : mapHas c k = true
      · simp [batchLoop, h, ih]
      · simp [batchLoop, h]

theorem batchLoop_lookup (c : JsMap K (Option V)) (keys : List K) :
    ∀ (acc m : JsMap K (Option V)), batchLoop c keys acc = some m →
      (∀ k, mapLookup acc k = some (mapGetV c k) → mapLookup m k = some (mapGetV c k)) ∧
      (∀ k ∈ keys, mapLookup m k = some (mapGetV c k)) := by
  induction keys with
  | nil =>
      intro acc m h
      simp [batchLoop] at h
      subst h
      exact ⟨fun k hk => hk, by simp⟩
  | cons k ks ih =>
      intro acc m h
      by_cases hk : mapHas c k = true
      · simp [batchLoop, hk] at h
        obtain ⟨h1, h2⟩ := ih (mapSet acc k (mapGetV c k)) m h
        refine ⟨fun k0 hk0 => ?_, fun k0 hk0 => ?_⟩
        · apply h1
          by_cases hkk : k0 = k
          · subst hkk; rw [mapLookup_mapSet_self]
          · rw [mapLookup_mapSet_ne _ _ hkk]; exact hk0
        · rcases List.mem_cons.mp hk0 with h' | h'
          · subst h'; apply h1; rw [mapLookup_mapSet_self]
          · exact h2 k0 h'
      · simp [batchLoop, hk] at h

theorem batchLoop_mem (c : JsMap K (Option V)) (keys : List K) :
    ∀ (acc m : JsMap K (Option V)), batchLoop c keys acc = some m →
      ∀ p ∈ m, p ∈ acc ∨ (p.1 ∈ keys ∧ p.2 = mapGetV c p.1) := by
  induction keys with
  | nil =>
      intro acc m h p hp
      simp [batchLoop] at h
      subst h
      exact Or.inl hp
  | cons k ks ih =>
      intro acc m h p hp
      by_cases hk : mapHas c k = true
      · simp [batchLoop, hk] at h
        rcases ih _ m h p hp with h' | h'
        · rcases mem_mapSet_elim h' with h'' | h''
          · exact Or.inl h''
          · exact Or.inr ⟨by simp [h''], by simp [h'']⟩
        · exact Or.inr ⟨List.mem_cons_of_mem _ h'.1, h'.2⟩
      · simp [batchLoop, hk] at h

theorem lastLookup_nil (k : K) : lastLookup ([] : JsMap K V) k = none := rfl

theorem lastLookup_cons (p : K × V) (l : JsMap K V) (k : K) :
    lastLookup (p :: l) k = (lastLookup l k).or (if p.1 = k then some p.2 else none) := by
  unfold lastLookup
  rw [List.reverse_cons, List.find?_append]
  cases hf : l.reverse.find? (fun q => q.1 = k) with
  | none => by_cases hp : p.1 = k <;> simp [List.find?, hp, Option.or]
  | some q => simp [Option.or]

theorem mapLookup_foldl_mapSet (l : JsMap K (Option V)) :
    ∀ (c : JsMap K (Option V)) (k : K),
      mapLookup (l.foldl (fun acc p => mapSet acc p.1 p.2) c) k =
        (lastLookup l k).or (mapLookup c k) := by
  induction l with
  | nil => intro c k; simp [lastLookup_nil, Option.or]
  | cons p l ih =>
      intro c k
      rw [List.foldl_cons, ih, lastLookup_cons]
      cases hl : lastLookup l k with
      | some q => simp [Option.or]
      | none =>
          by_cases hp : p.1 = k
          · subst hp; simp [Option.or, mapLookup_mapSet_self]
          · simp [Option.or, hp, mapLookup_mapSet_ne _ _ (fun he => hp he.symm)]

theorem lastLookup_isSome_of_mem {l : JsMap K V} {p : K × V} (h : p ∈ l) :
    (lastLookup l p.1).isSome = true := by
  unfold lastLookup
  cases hf : l.reverse.find? (fun q => q.1 = p.1) with
  | none =>
      have : ∃ x ∈ l.reverse, (fun q : K × V => decide (q.1 = p.1)) x :=
        ⟨p, List.mem_reverse.mpr h, by simp⟩
      rw [← List.find?_isSome] at this
      simp [hf] at this
  | some q => simp [hf]

/-- Claim C1: after `set(k, v)`, an immediate `get(k)` resolves to `v`
straight from memory with zero durable-store reads, for every store
behaviour — in particular before the buffered durable write for `k` has
committed. -/
theorem claim1_set_then_get (idb : IdbKV K V) (c : JsMap K (Option V)) (k : K) (v : V) :
    cacheGet idb (cacheSet c k v) k = ⟨Except.ok (some v), cacheSet c k v, 0⟩ := by
  unfold cacheGet cacheSet
  rw [if_pos (mapHas_mapSet_self c k (some v)), mapGetV_mapSet_self]

/-- Witness for claim C1 at a concrete input. -/
theorem claim1_witness :
    cacheGet (absentStore String Nat) (cacheSet [] "a" 5) "a"
      = ⟨Except.ok (some 5), cacheSet [] "a" 5, 0⟩ :=
  claim1_set_then_get (absentStore String Nat) [] "a" 5

/-- Counterexample to claim C2 as stated: after `set("a", 5)`, a
`getBatch(["a", "b"])` against a store whose buffered write for `"a"` has
not committed overwrites the memory entry for `"a"` with the store's
stale `undefined`, so the subsequent `get("a")` no longer observes `5`. -/
theorem claim2_counterexample :
    (cacheGet staleBatchStore
        (cacheGetBatch staleBatchStore (cacheSet [] "a" 5) ["a", "b"]).cache "a").result
      ≠ Except.ok (some 5) := by decide

/-- Claim C2 (amended): after `set(k, v)`, a later `get(k)` observes `v`
provided every intervening `getBatch` was fully memory-resident (such a
batch leaves memory untouched); a `getBatch` containing a memory-missing
key overwrites memory with the store's full response, after which
`get(k)` observes the store's last value for `k` when the response
mentions `k`, and still `v` otherwise. -/
theorem claim2_amended :
    (∀ (idb idb2 : IdbKV K V) (c : JsMap K (Option V)) (k : K) (v : V) (keys : List K),
        (∀ k' ∈ keys, mapHas (cacheSet c k v) k' = true) →
        (cacheGet idb2 (cacheGetBatch idb (cacheSet c k v) keys).cache k).result
          = Except.ok (some v)) ∧
    (∀ (idb idb2 : IdbKV K V) (c : JsMap K (Option V)) (k : K) (v : V)
        (keys : List K) (b : JsMap K (Option V)),
        ¬(∀ k' ∈ keys, mapHas (cacheSet c k v) k' = true) →
        idb.readBatch keys = Except.ok b →
        (cacheGet idb2 (cacheGetBatch idb (cacheSet c k v) keys).cache k).result
          = Except.ok ((lastLookup b k).getD (some v))) := by
  constructor
  · intro idb idb2 c k v keys hall
    simp only [cacheSet] at hall ⊢
    obtain ⟨m, hm⟩ := Option.isSome_iff_exists.mp
      ((batchLoop_isSome_iff (mapSet c k (some v)) keys []).mpr hall)
    have hcache : (cacheGetBatch idb (mapSet c k (some v)) keys).cache
        = mapSet c k (some v) := by
      unfold cacheGetBatch
      rw [hm]
    rw [hcache]
    unfold cacheGet
    rw [if_pos (mapHas_mapSet_self c k (some v))]
    rw [mapGetV_mapSet_self]
  · intro idb idb2 c k v keys b hmiss hstore
    simp only [cacheSet] at hmiss ⊢
    have hnone : batchLoop (mapSet c k (some v)) keys [] = none := by
      cases hb : batchLoop (mapSet c k (some v)) keys [] with
      | none => rfl
      | some m =>
          exact absurd ((batchLoop_isSome_iff _ keys []).mp (by simp [hb])) hmiss
    have hcache : (cacheGetBatch idb (mapSet c k (some v)) keys).cache
        = b.foldl (fun acc p => mapSet acc p.1 p.2) (mapSet c k (some v)) := by
      unfold cacheGetBatch
      rw [hnone, hstore]
    rw [hcache]
    have hl : mapLookup (b.foldl (fun acc p => mapSet acc p.1 p.2) (mapSet c k (some v))) k
        = (lastLookup b k).or (some (some v)) := by
      rw [mapLookup_foldl_mapSet, mapLookup_mapSet_self]
    have hhas : mapHas (b.foldl (fun acc p => mapSet acc p.1 p.2) (mapSet c k (some v))) k
        = true := by
      cases hll : lastLookup b k <;> simp [mapHas, hl, hll, Option.or]
    unfold cacheGet
    rw [if_pos hhas]
    simp only [mapGetV, hl]
    cases hll : lastLookup b k <;> simp [Option.or, hll]

/-- Witness for claim C2 (amended) at a concrete input: the store-path
conjunct at the counterexample's state, where the batch response's stale
value for `"a"` is what the later `get` observes. -/
theorem claim2_witness :
    (cacheGet staleBatchStore
        (cacheGetBatch staleBatchStore (cacheSet [] "a" 5) ["a", "b"]).cache "a").result
      = Except.ok none :=
  claim2_amended.2 staleBatchStore staleBatchStore [] "a" 5 ["a", "b"]
    [("a", none), ("b", some 7)] (by decide) rfl

/-- Claim C3: `getBatch` of an empty list resolves to the empty mapping
with no store read; when every key is memory-resident the mapping is
composed from memory (each requested key maps to its memory value, and
nothing else is in the mapping) with no store read and memory untouched;
when at least one key is memory-missing, exactly one durable multi-get is
issued for the full key list, its response is the returned mapping, and
every returned pair is written into memory. -/
theorem claim3_getBatch_policy :
    (∀ (idb : IdbKV K V) (c : JsMap K (Option V)),
        cacheGetBatch idb c [] = ⟨Except.ok [], c, 0⟩) ∧
    (∀ (idb : IdbKV K V) (c : JsMap K (Option V)) (keys : List K),
        (∀ k ∈ keys, mapHas c k = true) →
        ∃ m, cacheGetBatch idb c keys = ⟨Except.ok m, c, 0⟩ ∧
          (∀ k ∈ keys, mapLookup m k = some (mapGetV c k)) ∧
          (∀ p ∈ m, p.1 ∈ keys ∧ p.2 = mapGetV c p.1)) ∧
    (∀ (idb : IdbKV K V) (c : JsMap K (Option V)) (keys : List K) (b : JsMap K (Option V)),
        ¬(∀ k ∈ keys, mapHas c k = true) → idb.readBatch keys = Except.ok b →
        cacheGetBatch idb c keys
            = ⟨Except.ok b, b.foldl (fun acc p => mapSet acc p.1 p.2) c, 1⟩ ∧
          ∀ p ∈ b, mapHas (b.foldl (fun acc p => mapSet acc p.1 p.2) c) p.1 = true) := by
  refine ⟨fun idb c => rfl, fun idb c keys hall => ?_, fun idb c keys b hmiss hstore => ?_⟩
  · obtain ⟨m, hm⟩ := Option.isSome_iff_exists.mp
      ((batchLoop_isSome_iff c keys []).mpr hall)
    refine ⟨m, ?_, ?_, ?_⟩
    · unfold cacheGetBatch
      rw [hm]
    · exact (batchLoop_lookup c keys [] m hm).2
    · intro p hp
      rcases batchLoop_mem c keys [] m hm p hp with h | h
      · simp at h
      · exact h
  · have hnone : batchLoop c keys [] = none := by
      cases hb : batchLoop c keys [] with
      | none => rfl
      | some m =>
          exact absurd ((batchLoop_isSome_iff _ keys []).mp (by simp [hb])) hmiss
    constructor
    · unfold cacheGetBatch
      rw [hnone, hstore]
    · intro p hp
      have hl := mapLookup_foldl_mapSet b c p.1
      cases hll : lastLookup b p.1 with
      | none =>
          have := lastLookup_isSome_of_mem hp
          simp [hll] at this
      | some w => simp [mapHas, hl, hll, Option.or]

/-- Witness for claim C3 at a concrete input: the store-path conjunct at
an empty cache. -/
theorem claim3_witness :
    cacheGetBatch (absentStore String Nat) [] ["a"]
      = ⟨Except.ok [("a", none)], [("a", none)], 1⟩ :=
  (claim3_getBatch_policy.2.2 (absentStore String Nat) [] ["a"] [("a", none)]
    (by decide) rfl).1

/-- Claim C4: a cold `get(k)` issues exactly one durable read, writes the
store's resolution — a value or the absent marker — into memory and
returns it; every subsequent `get(k)` issues zero durable reads and
serves the cached resolution, for any store behaviour at that point. -/
theorem claim4_cold_get (idb : IdbKV K V) (c : JsMap K (Option V)) (k : K)
    (v : Option V) (hmiss : mapHas c k = false) (hstore : idb.readOne k = Except.ok v) :
    cacheGet idb c k = ⟨Except.ok v, mapSet c k v, 1⟩ ∧
    ∀ idb2 : IdbKV K V, cacheGet idb2 (mapSet c k v) k = ⟨Except.ok v, mapSet c k v, 0⟩ := by
  constructor
  · unfold cacheGet
    rw [if_neg (by simp [hmiss]), hstore]
  · intro idb2
    unfold cacheGet
    rw [if_pos (mapHas_mapSet_self c k v), mapGetV_mapSet_self]

/-- Witness for claim C4 at a concrete input, with the store resolving
the key to absent: the second read still issues zero store reads. -/
theorem claim4_witness :
    cacheGet (absentStore String Nat) [] "a" = ⟨Except.ok none, mapSet [] "a" none, 1⟩ ∧
    cacheGet (absentStore String Nat) (mapSet [] "a" none) "a"
      = ⟨Except.ok none, mapSet [] "a" none, 0⟩ :=
  ⟨(claim4_cold_get (absentStore String Nat) [] "a" none (by decide) rfl).1,
   (claim4_cold_get (absentStore String Nat) [] "a" none (by decide) rfl).2
     (absentStore String Nat)⟩

/-- Claim C10: when at least one requested key is memory-absent, the
mapping `getBatch` resolves to is exactly the store's multi-get response
for the full key list — memory-resident values are not merged in — and
there are states where `getBatch` and `get` observe different values for
the same key (here `"x"`: `getBatch` reports the store's stale absent,
`get` the memory value `9`). -/
theorem claim10_batch_response_verbatim :
    (∀ (idb : IdbKV K V) (c : JsMap K (Option V)) (keys : List K) (b : JsMap K (Option V)),
        ¬(∀ k ∈ keys, mapHas c k = true) → idb.readBatch keys = Except.ok b →
        (cacheGetBatch idb c keys).result = Except.ok b) ∧
    ((cacheGetBatch divergeStore [("x", some 9)] ["x", "y"]).result
        = Except.ok [("x", none), ("y", some 3)] ∧
      (cacheGet divergeStore [("x", some 9)] "x").result = Except.ok (some 9)) := by
  constructor
  · intro idb c keys b hmiss hstore
    have hnone : batchLoop c keys [] = none := by
      cases hb : batchLoop c keys [] with
      | none => rfl
      | some m =>
          exact absurd ((batchLoop_isSome_iff _ keys []).mp (by simp [hb])) hmiss
    unfold cacheGetBatch
    rw [hnone, hstore]
  · exact ⟨by decide, by decide⟩

/-- Witness for claim C10 at a concrete input: the generic conjunct at
the divergence state. -/
theorem claim10_witness :
    (cacheGetBatch divergeStore [("x", some 9)] ["x", "y"]).result
      = Except.ok [("x", none), ("y", some 3)] :=
  claim10_batch_response_verbatim.1 divergeStore [("x", some 9)] ["x", "y"]
    [("x", none), ("y", some 3)] (by decide) rfl

theorem colon_append_inj :
    ∀ (a b t1 t2 : List Char), ':' ∉ t1 → ':' ∉ t2 →
      a ++ ':' :: t1 = b ++ ':' :: t2 → a = b ∧ t1 = t2 := by
  intro a
  induction a with
  | nil =>
      intro b t1 t2 h1 h2 h
      cases b with
      | nil => simpa using h
      | cons y ys =>
          simp at h
          exact absurd (h.2 ▸ List.mem_append_right ys (List.mem_cons_self ':' t2)) h1
  | cons x xs ih =>
      intro b t1 t2 h1 h2 h
      cases b with
      | nil =>
          simp at h
          exact absurd (h.2 ▸ List.mem_append_right xs (List.mem_cons_self ':' t1)) h2
      | cons y ys =>
          simp at h
          obtain ⟨hxs, ht⟩ := ih ys t1 t2 h1 h2 h.2
          exact ⟨by simp [h.1, hxs], ht⟩

/-- Counterexample to claim C5 as stated: the spec's boundary pair does
collide — `uri = "a:b", cid = "c"` and `uri = "a", cid = "b:c"` are
distinct pairs deriving the same key `"a:b:c"`. -/
theorem claim5_counterexample :
    deriveKey "a:b" "c" = deriveKey "a" "b:c" ∧
      (("a:b", "c") : String × String) ≠ ("a", "b:c") := by decide

/-- Claim C5 (amended): key derivation is deterministic, and injective on
pairs whose `cid` component contains no colon (realistic cid alphabets);
the unescaped-colon boundary pair of the spec does collide (see the
counterexample). -/
theorem claim5_key_derivation :
    (∀ uri cid : String, deriveKey uri cid = deriveKey uri cid) ∧
    (∀ u1 c1 u2 c2 : String, ':' ∉ c1.data → ':' ∉ c2.data →
      deriveKey u1 c1 = deriveKey u2 c2 → u1 = u2 ∧ c1 = c2) := by
  refine ⟨fun uri cid => rfl, fun u1 c1 u2 c2 h1 h2 h => ?_⟩
  have hd := congrArg String.data h
  simp only [deriveKey, String.data_append] at hd
  have hd' : u1.data ++ ':' :: c1.data = u2.data ++ ':' :: c2.data := by
    simpa [List.append_assoc] using hd
  obtain ⟨hu, hc⟩ := colon_append_inj u1.data u2.data c1.data c2.data h1 h2 hd'
  exact ⟨String.ext hu, String.ext hc⟩

/-- Witness for claim C5 (amended) at concrete colon-free cids. -/
theorem claim5_witness :
    deriveKey "u" "c" = deriveKey "u" "c" ∧ (("u" : String) = "u" ∧ ("c" : String) = "c") :=
  ⟨claim5_key_derivation.1 "u" "c",
   claim5_key_derivation.2 "u" "c" "u" "c" (by decide) (by decide) rfl⟩

/-- Counterexample to claim C6 as stated: with a store whose read
rejects, a cold `get` does not resolve to the absent value — the
rejection propagates. -/
theorem claim6_counterexample :
    (cacheGet rejectingStore [] (deriveKey "u" "c")).result ≠ Except.ok none ∧
    (cacheGet rejectingStore [] (deriveKey "u" "c")).result = Except.error () := by
  exact ⟨by decide, by decide⟩

/-- Claim C6 (amended): a durable-store read failure is not resolved to
the absent value: the rejection propagates out of `get` and `getBatch`
(their `then` handlers never run, leaving memory untouched); the
trackers' update callbacks are likewise skipped, so the reported state
keeps its previous value (initially "not seen") and no synchronous
exception surfaces from the hooks. -/
theorem claim6_failure_propagation (idb : IdbKV String SeenPostRecord)
    (c : JsMap String (Option SeenPostRecord)) (r0 : Bool) (uri cid : String)
    (hmiss : mapHas c (deriveKey uri cid) = false)
    (hfail : idb.readOne (deriveKey uri cid) = Except.error ()) :
    cacheGet idb c (deriveKey uri cid) = ⟨Except.error (), c, 1⟩ ∧
    useIsPostSeen idb ⟨c, r0⟩ uri cid = (⟨c, r0⟩, 1) ∧
    (∀ keys : List String, ¬(∀ k ∈ keys, mapHas c k = true) →
      idb.readBatch keys = Except.error () →
      cacheGetBatch idb c keys = ⟨Except.error (), c, 1⟩) ∧
    (∀ it : String × String, ∀ rest : List (String × String),
      ¬(∀ k ∈ (it :: rest).map (fun q => deriveKey q.1 q.2), mapHas c k = true) →
      idb.readBatch ((it :: rest).map (fun q => deriveKey q.1 q.2)) = Except.error () →
      (useIsSliceSeen idb ⟨c, r0⟩ (it :: rest)).1 = r0) := by
  have hget : cacheGet idb c (deriveKey uri cid) = ⟨Except.error (), c, 1⟩ := by
    unfold cacheGet
    rw [if_neg (by simp [hmiss]), hfail]
  have hbatch : ∀ keys : List String, ¬(∀ k ∈ keys, mapHas c k = true) →
      idb.readBatch keys = Except.error () →
      cacheGetBatch idb c keys = ⟨Except.error (), c, 1⟩ := by
    intro keys hk hf
    have hnone : batchLoop c keys [] = none := by
      cases hb : batchLoop c keys [] with
      | none => rfl
      | some m => exact absurd ((batchLoop_isSome_iff _ keys []).mp (by simp [hb])) hk
    unfold cacheGetBatch
    rw [hnone, hf]
  refine ⟨hget, ?_, hbatch, ?_⟩
  · unfold useIsPostSeen
    rw [hget]
  · intro it rest hk hf
    have hb := hbatch _ hk hf
    rw [List.map_cons] at hb
    simp only [useIsSliceSeen, List.map_cons, List.isEmpty_cons, hb]
    rfl

/-- Witness for claim C6 (amended) at a concrete input: the rejecting
store leaves an initially-true reported state untouched. -/
theorem claim6_witness :
    useIsPostSeen rejectingStore ⟨[], true⟩ "u" "c" = (⟨[], true⟩, 1) ∧
    cacheGetBatch rejectingStore [] ["u:c"] = ⟨Except.error (), [], 1⟩ ∧
    (useIsSliceSeen rejectingStore ⟨[], true⟩ [("u", "c")]).1 = true :=
  ⟨(claim6_failure_propagation rejectingStore [] true "u" "c" (by decide) rfl).2.1,
   (claim6_failure_propagation rejectingStore [] true "u" "c" (by decide) rfl).2.2.1
     ["u:c"] (by decide) rfl,
   (claim6_failure_propagation rejectingStore [] true "u" "c" (by decide) rfl).2.2.2
     ("u", "c") [] (by decide) rfl⟩

/-- Claim C8: `useIsSliceSeen` on an empty item list issues no cache
query (zero store reads) and leaves the previously reported boolean
unchanged — no transition to "seen" or to "not seen". -/
theorem claim8_empty_slice (idb : IdbKV String SeenPostRecord) (tv : TrackerView) :
    useIsSliceSeen idb tv [] = (tv.reported, 0) := rfl

/-- Witness for claim C8 at a concrete input with a previously-true
reported state. -/
theorem claim8_witness :
    useIsSliceSeen rejectingStore ⟨sliceCache, true⟩ [] = (true, 0) :=
  claim8_empty_slice rejectingStore ⟨sliceCache, true⟩

/-- Counterexample to claim C7 as stated: in a state where `u1:c1` is a
freshly `set` memory entry whose durable write has not committed and
`u2:c2` is only in the durable store, each per-post check reports seen,
but the slice check evaluates the store's full-batch response — which
resolves `u1:c1` to absent — and reports not seen. -/
theorem claim7_counterexample :
    (useIsSliceSeen sliceStore ⟨sliceCache, false⟩ [("u1", "c1"), ("u2", "c2")]).1
      ≠ [("u1", "c1"), ("u2", "c2")].all
          (fun q => isPostSeenReports sliceStore sliceCache q.1 q.2) := by decide

/-- Claim C7 (amended): when every item's key is memory-resident, the
slice check equals the conjunction of the per-post checks over the same
cache state; when some key is memory-missing the slice check evaluates
the store's full-batch response, which can disagree with the per-post
checks for memory-resident keys (see the counterexample). -/
theorem claim7_slice_conjunction (idb : IdbKV String SeenPostRecord) (tv : TrackerView)
    (items : List (String × String)) (hne : items ≠ [])
    (hall : ∀ q ∈ items, mapHas tv.cache (deriveKey q.1 q.2) = true) :
    (useIsSliceSeen idb tv items).1
      = items.all (fun q => isPostSeenReports idb tv.cache q.1 q.2) := by
  have hkeys : ∀ k ∈ items.map (fun q => deriveKey q.1 q.2), mapHas tv.cache k = true := by
    intro k hk
    obtain ⟨q, hq, rfl⟩ := List.mem_map.mp hk
    exact hall q hq
  obtain ⟨m, hm⟩ := Option.isSome_iff_exists.mp
    ((batchLoop_isSome_iff tv.cache (items.map (fun q => deriveKey q.1 q.2)) []).mpr hkeys)
  have hbatch : cacheGetBatch idb tv.cache (items.map (fun q => deriveKey q.1 q.2))
      = ⟨Except.ok m, tv.cache, 0⟩ := by
    unfold cacheGetBatch
    rw [hm]
  have hie : (items.map (fun q => deriveKey q.1 q.2)).isEmpty = false := by
    cases items with
    | nil => exact absurd rfl hne
    | cons a l => rfl
  have hslice : (useIsSliceSeen idb tv items).1 = (mapValues m).all (fun v => v.isSome) := by
    simp [useIsSliceSeen, hie, hbatch]
  have hrep : ∀ q ∈ items, isPostSeenReports idb tv.cache q.1 q.2
      = (mapGetV tv.cache (deriveKey q.1 q.2)).isSome := by
    intro q hq
    unfold isPostSeenReports cacheGet
    rw [if_pos (hall q hq)]
  rw [hslice, Bool.eq_iff_iff]
  simp only [List.all_eq_true]
  constructor
  · intro hA q hq
    rw [hrep q hq]
    have hin : mapLookup m (deriveKey q.1 q.2)
        = some (mapGetV tv.cache (deriveKey q.1 q.2)) :=
      (batchLoop_lookup tv.cache _ [] m hm).2 _ (List.mem_map.mpr ⟨q, hq, rfl⟩)
    exact hA _ (List.mem_map.mpr ⟨_, mapLookup_eq_some_mem hin, rfl⟩)
  · intro hB v hv
    obtain ⟨p, hp, rfl⟩ := List.mem_map.mp hv
    rcases batchLoop_mem tv.cache _ [] m hm p hp with h | h
    · simp at h
    · obtain ⟨q, hq, hqk⟩ := List.mem_map.mp h.1
      have := hB q hq
      rw [hrep q hq] at this
      rw [h.2, ← hqk]
      exact this

/-- Witness for claim C7 (amended) at a concrete input: a single-item
slice whose key is memory-resident agrees with the per-post check even
over a store whose reads reject. -/
theorem claim7_witness :
    (useIsSliceSeen rejectingStore ⟨sliceCache, false⟩ [("u1", "c1")]).1
      = [("u1", "c1")].all (fun q => isPostSeenReports rejectingStore sliceCache q.1 q.2) :=
  claim7_slice_conjunction rejectingStore ⟨sliceCache, false⟩ [("u1", "c1")]
    (by decide) (by decide)

end SeenPosts

namespace AltText

theorem repChar_length (n : Nat) (c : Char) : (repChar n c).length = n := by
  rw [repChar]
  show (List.replicate n c).length = n
  rw [List.length_replicate]

theorem truncFallback_length_le (text : String) :
    (truncFallback text).length ≤ MAX_ALT_TEXT_LENGTH := by
  have h1 : (truncFallback text).length
      = min (MAX_ALT_TEXT_LENGTH - 3) text.data.length + 3 := by
    rw [truncFallback, jsSubstring, String.length_append]
    have h2 : ("..." : String).length = 3 := rfl
    have h3 : (String.mk (text.data.take (MAX_ALT_TEXT_LENGTH - 3))).length
        = (text.data.take (MAX_ALT_TEXT_LENGTH - 3)).length := rfl
    rw [h2, h3, List.length_take]
  rw [h1]
  have := Nat.min_le_left (MAX_ALT_TEXT_LENGTH - 3) text.data.length
  simp only [MAX_ALT_TEXT_LENGTH] at *
  omega

/-- Counterexample to claim C9 as stated: a proxy response of 2001
characters triggers condensation, but the condensation service's reply is
returned without re-checking the ceiling, so a 2500-character reply makes
the finally returned alt text exceed 2000 characters. -/
theorem claim9_counterexample :
    MAX_ALT_TEXT_LENGTH < (repChar 2001 'a').length ∧
    MAX_ALT_TEXT_LENGTH <
      (handleProxyAltText (repChar 2001 'a') false true (some (repChar 2500 'b'))).length := by
  have hne : repChar 2500 'b' ≠ "" := by
    intro h
    have h2 := congrArg String.length h
    rw [repChar_length] at h2
    exact absurd h2 (by decide)
  have hgt : (repChar 2001 'a').length > MAX_ALT_TEXT_LENGTH := by
    rw [repChar_length]
    decide
  have hres : handleProxyAltText (repChar 2001 'a') false true (some (repChar 2500 'b'))
      = repChar 2500 'b' := by
    unfold handleProxyAltText
    rw [if_pos hgt]
    simp [condenseAltText, hne]
  refine ⟨hgt, ?_⟩
  rw [hres, repChar_length]
  decide

/-- Claim C9 (amended): when the proxy's alt text exceeds the
2000-character ceiling, a condensation request (operation
`condense_text`, target length 1900) is issued rather than truncating the
proxy text; the finally returned text is guaranteed within the ceiling
when the condensation reply fails (fallback truncation) or when the
reply itself is within the ceiling, but a successful reply is returned
without re-checking, so an over-long reply is passed through (see the
counterexample). -/
theorem claim9_condense_policy (text : String) (isVideo replyOk : Bool)
    (replyAltText : Option String) (hover : text.length > MAX_ALT_TEXT_LENGTH) :
    (condenseRequestOf text isVideo).operation = "condense_text" ∧
    (condenseRequestOf text isVideo).targetLength = MAX_ALT_TEXT_LENGTH - 100 ∧
    ((replyOk = false ∨ replyAltText.getD "" = "") →
      (handleProxyAltText text isVideo replyOk replyAltText).length ≤ MAX_ALT_TEXT_LENGTH) ∧
    (replyOk = true → replyAltText.getD "" ≠ "" →
      ((isVideo = false → handleProxyAltText text isVideo replyOk replyAltText
          = replyAltText.getD "") ∧
       ((replyAltText.getD "").length ≤ MAX_ALT_TEXT_LENGTH →
        (handleProxyAltText text isVideo replyOk replyAltText).length
          ≤ MAX_ALT_TEXT_LENGTH))) := by
  refine ⟨rfl, rfl, ?_, ?_⟩
  · intro hfail
    have hcond : condenseAltText text true replyOk replyAltText = truncFallback text := by
      unfold condenseAltText
      rw [if_neg (by simp), if_pos hfail]
    unfold handleProxyAltText
    rw [if_pos hover]
    cases isVideo with
    | false => simpa [hcond] using truncFallback_length_le text
    | true =>
        simp only [hcond]
        set note :=
          "[Note: This video description was automatically condensed to fit character limits.]\n\n"
        by_cases hn : (truncFallback text).length + note.length ≤ MAX_ALT_TEXT_LENGTH
        · simp only [hn, if_true, String.length_append]
          omega
        · simpa [hn] using truncFallback_length_le text
  · intro hok hne
    have hcond : condenseAltText text true replyOk replyAltText = replyAltText.getD "" := by
      unfold condenseAltText
      rw [if_neg (by simp), if_neg (by simp [hok, hne])]
    constructor
    · intro hiv
      subst hiv
      unfold handleProxyAltText
      rw [if_pos hover]
      simpa using hcond
    · intro hlen
      unfold handleProxyAltText
      rw [if_pos hover]
      cases isVideo with
      | false => simpa [hcond] using hlen
      | true =>
          simp only [hcond]
          set note :=
            "[Note: This video description was automatically condensed to fit character limits.]\n\n"
          by_cases hn : (replyAltText.getD "").length + note.length ≤ MAX_ALT_TEXT_LENGTH
          · simp only [hn, if_true, String.length_append]
            omega
          · simpa [hn] using hlen

/-- Witness for claim C9 (amended) at a concrete input: a failed
condensation reply falls back to truncation within the ceiling. -/
theorem claim9_witness :
    (handleProxyAltText (repChar 2001 'a') false false none).length ≤ MAX_ALT_TEXT_LENGTH :=
  (claim9_condense_policy (repChar 2001 'a') false false none
    (by rw [repChar_length]; decide)).2.2.1 (Or.inl rfl)

end AltText
